/-
Verification of the technical-indicator engine, data-freshness utilities and
cache/proxy layer of the next-platform-chart repository.

The embedding models JavaScript floating-point numbers as rationals (ℚ) and
the pervasive `number | null` union as `Option ℚ`.  Array indices and epoch
timestamps are integers.  Sources:

  * indicator engine:  app/crypto/utils (calculateSMA / calculateEMA /
    calculateMACD / calculateBollingerBands) and the chart component
    (calculateRSI);
  * data freshness:    app/crypto/utils (detectPriceDrift);
  * cache/proxy layer: app/crypto/api/coin-history/route.js (GET).
-/
import Mathlib

set_option maxHeartbeats 1000000

/-- JavaScript `Array.prototype.slice(s, e)`: negative bounds count from the
end, positive bounds are clamped to the array length, and an empty array is
produced when the effective start is at or past the effective end. -/
def jsSlice {α : Type} (l : List α) (s e : ℤ) : List α :=
  let n : ℤ := l.length
  let s2 : ℤ := if s < 0 then max (n + s) 0 else min s n
  let e2 : ℤ := if e < 0 then max (n + e) 0 else min e n
  (l.drop s2.toNat).take (e2 - s2).toNat

/-- Embedding of `calculateSMA(data, period)` from app/crypto/utils: for each
index `i` of `data`, push `null` when `i < period - 1`, otherwise push the sum
of `data.slice(i - period + 1, i + 1)` divided by `period`.  The period is an
integer (the source never guards it, so `period <= 0` is representable). -/
def calculateSMA (data : List ℚ) (period : ℤ) : List (Option ℚ) :=
  (List.range data.length).map fun (i : ℕ) =>
    if (i : ℤ) < period - 1 then none
    else some ((jsSlice data ((i : ℤ) - period + 1) ((i : ℤ) + 1)).sum / (period : ℚ))

/-- One iteration of the EMA loop in `calculateEMA`: the source pushes
`(data[i] - ema[i-1]) * multiplier + ema[i-1]` when the previous entry
(the last element of the array built so far) is non-null, and `null`
otherwise. -/
def pushEMA (mult : ℚ) (arr : List (Option ℚ)) (x : ℚ) : List (Option ℚ) :=
  arr ++ [match arr.getLast? with
    | some (some prev) => some ((x - prev) * mult + prev)
    | _ => none]

/-- Embedding of `calculateEMA(data, period)` from app/crypto/utils: push
`null` for the first `min(period, data.length)` indices while accumulating the
sum of those samples; if the input is shorter than `period` return that
all-null array; otherwise overwrite index `period - 1` with the seeding SMA
and run the recurrence over the remaining samples.  Every call site of the
source passes `period >= 1`; the embedding is faithful on that domain (for
`period = 0` the source leans on JavaScript negative-index semantics that
no caller exercises). -/
def calculateEMA (data : List ℚ) (period : ℕ) : List (Option ℚ) :=
  if data.length < period then List.replicate data.length none
  else
    (data.drop period).foldl (pushEMA (2 / ((period : ℚ) + 1)))
      (List.replicate (period - 1) none ++ [some ((data.take period).sum / (period : ℚ))])

/-- Pointwise `fast - slow` with null propagation, as in the `macdLine` and
`histogram` maps of `calculateMACD`. -/
def subSome : Option ℚ → Option ℚ → Option ℚ
  | some a, some b => some (a - b)
  | _, _ => none

/-- Result record of `calculateMACD`. -/
structure MACDData where
  macdLine : List (Option ℚ)
  signalLine : List (Option ℚ)
  histogram : List (Option ℚ)
  deriving DecidableEq

/-- The `validMACDValues` extraction of `calculateMACD`: the non-null MACD
values in order. -/
def macdValidValues (l : List (Option ℚ)) : List ℚ := l.filterMap id

/-- The `validMACDIndices` extraction of `calculateMACD`: the indices of the
non-null MACD values in order. -/
def macdValidIndices (l : List (Option ℚ)) : List ℕ :=
  l.enum.filterMap fun p => if p.2.isSome then some p.1 else none

/-- The scatter loop of `calculateMACD`: write each non-null signal-EMA value
back at its recorded original index, into an all-null array of length `n`. -/
def scatterSignal (n : ℕ) (signalEMA : List (Option ℚ)) (idxs : List ℕ) :
    List (Option ℚ) :=
  (List.zip signalEMA idxs).foldl
    (fun acc p => match p.1 with
      | some v => acc.set p.2 (some v)
      | none => acc)
    (List.replicate n none)

/-- Embedding of `calculateMACD(data, fastPeriod, slowPeriod, signalPeriod)`
from app/crypto/utils: subtract the two EMAs pointwise (both have the length
of `data`), compact the non-null MACD values, run the signal EMA over the
compacted list, scatter its values back to the recorded original indices into
an all-null array of the input length, and subtract pointwise for the
histogram. -/
def calculateMACD (data : List ℚ) (fastPeriod slowPeriod signalPeriod : ℕ) : MACDData :=
  let macdLine :=
    List.zipWith subSome (calculateEMA data fastPeriod) (calculateEMA data slowPeriod)
  let signalLine := scatterSignal data.length
    (calculateEMA (macdValidValues macdLine) signalPeriod) (macdValidIndices macdLine)
  { macdLine := macdLine, signalLine := signalLine,
    histogram := List.zipWith subSome macdLine signalLine }

/-- Result record of `calculateBollingerBands`. -/
structure BollingerBandsData where
  upper : List (Option ℚ)
  middle : List (Option ℚ)
  lower : List (Option ℚ)
  deriving DecidableEq

/-- One iteration of the band loop of `calculateBollingerBands`: the null
checks, the trailing slice, the population variance
`sum((v - mean)^2) / period`, and the pushed `(upper, lower)` pair. -/
def bollingerPair (sqrtFn : ℚ → ℚ) (data : List ℚ) (period : ℤ) (stdDevMultiplier : ℚ)
    (middle : List (Option ℚ)) (i : ℕ) : Option ℚ × Option ℚ :=
  if (i : ℤ) < period - 1 then (none, none)
  else
    match middle.getD i none with
    | none => (none, none)
    | some mean =>
      let slice := jsSlice data ((i : ℤ) - period + 1) ((i : ℤ) + 1)
      let variance := (slice.map fun v => (v - mean) ^ 2).sum / (period : ℚ)
      (some (mean + stdDevMultiplier * sqrtFn variance),
        some (mean - stdDevMultiplier * sqrtFn variance))

/-- Embedding of `calculateBollingerBands(data, period, stdDevMultiplier)`
from app/crypto/utils.  `Math.sqrt` (an operation with no exact rational
counterpart) is abstracted as the function parameter `sqrtFn`; everything
else — the SMA middle band, the trailing window, the population variance
(division by `period`), and the symmetric offsets — is embedded directly. -/
def calculateBollingerBands (sqrtFn : ℚ → ℚ) (data : List ℚ) (period : ℤ)
    (stdDevMultiplier : ℚ) : BollingerBandsData :=
  let middle := calculateSMA data period
  let bands := (List.range data.length).map
    (bollingerPair sqrtFn data period stdDevMultiplier middle)
  { upper := bands.map Prod.fst, middle := middle, lower := bands.map Prod.snd }

/-- Positive part of a price change (`change > 0 ? change : 0`). -/
def gainOf (c : ℚ) : ℚ := if 0 < c then c else 0

/-- Loss extracted in the RSI smoothing loop (`change < 0 ? |change| : 0`). -/
def lossOf (c : ℚ) : ℚ := if c < 0 then -c else 0

/-- Loss accumulated in the RSI seeding loop: the source's `else` branch adds
`Math.abs(changes[i])` for every non-positive change. -/
def seedLossOf (c : ℚ) : ℚ := if 0 < c then 0 else |c|

/-- Wilder smoothing step `(avg * (period - 1) + x) / period`. -/
def wilder (period : ℕ) (avg x : ℚ) : ℚ :=
  (avg * ((period : ℚ) - 1) + x) / (period : ℚ)

/-- RSI emission: `100` when the smoothed average loss is zero, otherwise
`100 - 100 / (1 + RS)` with `RS = avgGain / avgLoss`. -/
def rsiValue (avgGain avgLoss : ℚ) : ℚ :=
  if avgLoss = 0 then 100 else 100 - 100 / (1 + avgGain / avgLoss)

/-- The post-seed loop of `calculateRSI`: for each remaining change, update
both Wilder averages and emit an RSI value. -/
def rsiRest (period : ℕ) : ℚ → ℚ → List ℚ → List ℚ
  | _, _, [] => []
  | g, l, c :: cs =>
    rsiValue (wilder period g (gainOf c)) (wilder period l (lossOf c)) ::
      rsiRest period (wilder period g (gainOf c)) (wilder period l (lossOf c)) cs

/-- First-difference series `changes[i] = prices[i+1] - prices[i]`. -/
def priceChanges (prices : List ℚ) : List ℚ :=
  List.zipWith (fun a b => b - a) prices prices.tail

/-- Embedding of `calculateRSI(prices, period)` from the chart component:
return `[]` when `prices.length < period + 1`; otherwise seed the average
gain/loss from the first `period` changes, push `period` nulls, emit the
first RSI from the seeds, and continue with Wilder smoothing over the
remaining changes. -/
def calculateRSI (prices : List ℚ) (period : ℕ) : List (Option ℚ) :=
  if prices.length < period + 1 then []
  else
    let changes := priceChanges prices
    let avgGain := ((changes.take period).map gainOf).sum / (period : ℚ)
    let avgLoss := ((changes.take period).map seedLossOf).sum / (period : ℚ)
    List.replicate period none ++
      (rsiValue avgGain avgLoss :: rsiRest period avgGain avgLoss (changes.drop period)).map some

/-- One Wilder update of the RSI average pair, shared by the statements about
the emitted values of `calculateRSI`. -/
def rsiStepAvgs (period : ℕ) (gl : ℚ × ℚ) (c : ℚ) : ℚ × ℚ :=
  (wilder period gl.1 (gainOf c), wilder period gl.2 (lossOf c))

/-- Result record of `detectPriceDrift`. -/
structure PriceDriftResult where
  driftPercent : ℚ
  acceptable : Bool
  deriving DecidableEq

/-- Embedding of `detectPriceDrift(listPrice, chartLatestPrice)` from
app/crypto/utils/dataFreshness: zero list price short-circuits to an
acceptable zero drift; otherwise the drift is
`Math.abs((listPrice - chartLatestPrice) / listPrice) * 100`, acceptable when
at most `1`. -/
def detectPriceDrift (listPrice chartLatestPrice : ℚ) : PriceDriftResult :=
  if listPrice = 0 then { driftPercent := 0, acceptable := true }
  else
    { driftPercent := |(listPrice - chartLatestPrice) / listPrice| * 100,
      acceptable := decide (|(listPrice - chartLatestPrice) / listPrice| * 100 ≤ 1) }

/-- Closed form of the values produced by the EMA recurrence loop after the
seed: each element is `(x - prev) * mult + prev` for the previous element. -/
def emaChain (mult : ℚ) : ℚ → List ℚ → List ℚ
  | _, [] => []
  | prev, x :: xs => ((x - prev) * mult + prev) :: emaChain mult ((x - prev) * mult + prev) xs

/-- The non-null values of the EMA: the seeding SMA followed by the
recurrence chain over the samples past the seed window. -/
def emaFull (data : List ℚ) (period : ℕ) : List ℚ :=
  ((data.take period).sum / (period : ℚ)) ::
    emaChain (2 / ((period : ℚ) + 1)) ((data.take period).sum / (period : ℚ)) (data.drop period)

/-- Cache entry of the coin-history route: `{data, timestamp}`.  The cached
payload is abstracted as a natural number tag. -/
structure HistCacheEntry where
  data : ℕ
  timestamp : ℤ
  deriving DecidableEq

/-- Outcome of the single upstream `fetch` of the coin-history route: an HTTP
response with a status code and body, or a network-level failure (a rejected
promise). -/
inductive FetchResult where
  | ok (status : ℤ) (body : ℕ)
  | netError
  deriving DecidableEq

/-- A thrown JavaScript error that escapes the handler. -/
inductive JsError where
  | referenceError (name : String)
  deriving DecidableEq

/-- Responses of the coin-history route: a JSON payload with `cached` and
`stale` flags (`stale = false` models an absent `stale` field), the 400
missing-id error, or the 500 failure response. -/
inductive HistResponse where
  | payload (data : ℕ) (cached : Bool) (stale : Bool) (timestamp : ℤ)
  | missingId
  | failure
  deriving DecidableEq

/-- JavaScript `response.ok`: status in the 200-299 range. -/
def respOk (status : ℤ) : Bool := decide (200 ≤ status) && decide (status < 300)

/-- The post-cache-check portion of `GET` in
app/crypto/api/coin-history/route.js, together with the `catch` block.
In the source, `cacheKey` is declared with `const` INSIDE the `try` block,
but the `catch` block reads `historyCache.get(cacheKey)`.  A `const` bound in
the `try` block is not in scope in the sibling `catch` block and nothing else
named `cacheKey` is in scope there, so every execution of the catch block
throws a `ReferenceError` before it can consult the cache.  The embedding
therefore maps every path that reaches the catch block — a non-OK non-429
response (the `throw new Error(...)`) and a rejected fetch — to a thrown
`ReferenceError "cacheKey"`. -/
def coinHistoryFetch (cacheKey : String) (cached : Option HistCacheEntry)
    (historyCache : List (String × HistCacheEntry)) (now : ℤ) (fetch : FetchResult) :
    Except JsError (HistResponse × List (String × HistCacheEntry)) :=
  match fetch with
  | .ok status body =>
    if respOk status then
      .ok (.payload body false false now, (cacheKey, ⟨body, now⟩) :: historyCache)
    else
      match cached with
      | some entry =>
        if status == 429 then
          .ok (.payload entry.data true true entry.timestamp, historyCache)
        else .error (.referenceError "cacheKey")
      | none => .error (.referenceError "cacheKey")
  | .netError => .error (.referenceError "cacheKey")

/-- Embedding of `GET` in app/crypto/api/coin-history/route.js.  The module
cache `historyCache` (a `Map`) is an association list whose first matching
binding wins; `Map.set` is modelled by prepending the new binding.  `days`
and `vs_currency` default to `"7"` and `"usd"`; `now` is `Date.now()`; the
upstream fetch outcome is the `fetch` argument.  A fresh cache hit
(age < 300000 ms) returns the cached payload immediately; otherwise the
request falls through to `coinHistoryFetch`. -/
def coinHistoryGET (id : Option String) (days vsCurrency : Option String)
    (historyCache : List (String × HistCacheEntry)) (now : ℤ) (fetch : FetchResult) :
    Except JsError (HistResponse × List (String × HistCacheEntry)) :=
  match id with
  | none => .ok (.missingId, historyCache)
  | some idv =>
    let cacheKey := idv ++ "_" ++ days.getD "7" ++ "_" ++ vsCurrency.getD "usd"
    let cached := (historyCache.find? fun p => p.1 == cacheKey).map Prod.snd
    match cached with
    | some entry =>
      if now - entry.timestamp < 300000 then
        .ok (.payload entry.data true false entry.timestamp, historyCache)
      else coinHistoryFetch cacheKey cached historyCache now fetch
    | none => coinHistoryFetch cacheKey cached historyCache now fetch


/-- Reduction helper for `Int.toNat` applied to an integer numeral, used when
evaluating the embedding on concrete inputs. -/
theorem toNatNumeral (n : ℕ) : (Int.toNat (no_index (OfNat.ofNat n))) = OfNat.ofNat n := rfl

/-- A `slice` call with in-range non-negative bounds is a drop-then-take. -/
theorem jsSlice_of_nonneg {α : Type} (l : List α) (s e : ℤ) (hs : 0 ≤ s)
    (hsn : s ≤ (l.length : ℤ)) (he : 0 ≤ e) (hen : e ≤ (l.length : ℤ)) :
    jsSlice l s e = (l.drop s.toNat).take (e.toNat - s.toNat) := by
  simp only [jsSlice]
  rw [if_neg (by omega), if_neg (by omega), min_eq_left hsn, min_eq_left hen]
  congr 1
  omega

theorem sma_length (data : List ℚ) (period : ℤ) :
    (calculateSMA data period).length = data.length := by
  simp [calculateSMA]

theorem sma_get?_eq (data : List ℚ) (period : ℤ) {i : ℕ} (hi : i < data.length) :
    (calculateSMA data period).get? i =
      some (if (i : ℤ) < period - 1 then none
        else some ((jsSlice data ((i : ℤ) - period + 1) ((i : ℤ) + 1)).sum / (period : ℚ))) := by
  simp only [calculateSMA, List.get?_eq_getElem?, List.getElem?_map,
    List.getElem?_range hi, Option.map_some']

/-- Before the warm-up index the SMA entry is null. -/
theorem sma_get?_null (data : List ℚ) (period : ℕ) {i : ℕ} (hi : i < data.length)
    (h : i + 1 < period) :
    (calculateSMA data (period : ℤ)).get? i = some none := by
  rw [sma_get?_eq data _ hi, if_pos (by omega)]

/-- From the warm-up index on, the SMA entry is the mean of the trailing
window of `period` samples ending at the index. -/
theorem sma_get?_val (data : List ℚ) (period : ℕ) (hp : 1 ≤ period) {i : ℕ}
    (hi : i < data.length) (h : period ≤ i + 1) :
    (calculateSMA data (period : ℤ)).get? i =
      some (some (((data.drop (i + 1 - period)).take period).sum / (period : ℚ))) := by
  rw [sma_get?_eq data _ hi, if_neg (by omega),
    jsSlice_of_nonneg data _ _ (by omega) (by omega) (by omega) (by omega)]
  have h1 : ((i : ℤ) - (period : ℤ) + 1).toNat = i + 1 - period := by omega
  have h2 : ((i : ℤ) + 1).toNat - ((i : ℤ) - (period : ℤ) + 1).toNat = period := by omega
  rw [h2, h1]
  norm_cast

theorem emaChain_length (mult prev : ℚ) (xs : List ℚ) :
    (emaChain mult prev xs).length = xs.length := by
  induction xs generalizing prev with
  | nil => rfl
  | cons x xs ih => simp [emaChain, ih]

theorem foldl_pushEMA (mult : ℚ) (xs : List ℚ) :
    ∀ (arr : List (Option ℚ)) (prev : ℚ), arr.getLast? = some (some prev) →
      xs.foldl (pushEMA mult) arr = arr ++ (emaChain mult prev xs).map some := by
  induction xs with
  | nil => intro arr prev _; simp [emaChain]
  | cons x xs ih =>
    intro arr prev h
    have hstep : pushEMA mult arr x = arr ++ [some ((x - prev) * mult + prev)] := by
      simp [pushEMA, h]
    rw [List.foldl_cons, hstep,
      ih (arr ++ [some ((x - prev) * mult + prev)]) ((x - prev) * mult + prev)
        (List.getLast?_concat _)]
    simp [emaChain]

theorem ema_eq_chain (data : List ℚ) (period : ℕ) (hn : period ≤ data.length) :
    calculateEMA data period =
      List.replicate (period - 1) none ++ (emaFull data period).map some := by
  rw [calculateEMA, if_neg (by omega),
    foldl_pushEMA _ _ _ _ (List.getLast?_concat _)]
  simp [emaFull]

theorem ema_length (data : List ℚ) (period : ℕ) (hp : 1 ≤ period) :
    (calculateEMA data period).length = data.length := by
  by_cases h : data.length < period
  · rw [calculateEMA, if_pos h]
    simp
  · rw [ema_eq_chain data period (by omega)]
    simp [emaFull, emaChain_length]
    omega

theorem ema_get?_null (data : List ℚ) (period : ℕ) {i : ℕ} (hn : period ≤ data.length)
    (h : i + 1 < period) :
    (calculateEMA data period).get? i = some none := by
  rw [ema_eq_chain data period hn, List.get?_append (by simp; omega)]
  simp [List.get?_eq_getElem?, List.getElem?_replicate, Nat.lt_of_succ_lt_succ]
  omega

theorem ema_get?_of_ge (data : List ℚ) (period : ℕ) (hn : period ≤ data.length) {i : ℕ}
    (hi : period - 1 ≤ i) :
    (calculateEMA data period).get? i =
      ((emaFull data period).get? (i - (period - 1))).map some := by
  rw [ema_eq_chain data period hn, List.get?_append_right (by simp; omega)]
  simp [List.get?_map]

theorem emaChain_get? (mult : ℚ) :
    ∀ (xs : List ℚ) (prev : ℚ) (j : ℕ), j < xs.length →
      (emaChain mult prev xs).get? j =
        some ((xs.getD j 0 - (prev :: emaChain mult prev xs).getD j 0) * mult +
          (prev :: emaChain mult prev xs).getD j 0)
  | [], _, j, h => by simp at h
  | x :: xs, prev, 0, _ => by simp [emaChain]
  | x :: xs, prev, j + 1, h => by
    have ih := emaChain_get? mult xs ((x - prev) * mult + prev) j (by
      simpa using Nat.lt_of_succ_lt_succ h)
    simpa [emaChain] using ih

theorem emaFull_length (data : List ℚ) (period : ℕ) :
    (emaFull data period).length = data.length - period + 1 := by
  simp [emaFull, emaChain_length]

theorem ema_get?_seed (data : List ℚ) (period : ℕ) (hn : period ≤ data.length) :
    (calculateEMA data period).get? (period - 1) =
      some (some ((data.take period).sum / (period : ℚ))) := by
  rw [ema_get?_of_ge data period hn (Nat.le_refl _), Nat.sub_self]
  simp [emaFull]

theorem ema_get?_step (data : List ℚ) (period : ℕ) (hp : 1 ≤ period) {i : ℕ}
    (hip : period ≤ i) (hin : i < data.length) :
    ∃ prev, (calculateEMA data period).get? (i - 1) = some (some prev) ∧
      (calculateEMA data period).get? i =
        some (some ((data.getD i 0 - prev) * (2 / ((period : ℚ) + 1)) + prev)) := by
  have hn : period ≤ data.length := by omega
  have hj : i - (period - 1) = (i - period) + 1 := by omega
  have hj1 : (i - 1) - (period - 1) = i - period := by omega
  have hlt : i - period < (data.drop period).length := by
    simp
    omega
  refine ⟨(emaFull data period).getD (i - period) 0, ?_, ?_⟩
  · rw [ema_get?_of_ge data period hn (by omega), hj1]
    have : (emaFull data period).get? (i - period) = some ((emaFull data period).getD (i - period) 0) := by
      rw [List.getD_eq_get? ]
      cases hq : (emaFull data period).get? (i - period) with
      | none =>
        rw [List.get?_eq_none] at hq
        rw [emaFull_length] at hq
        omega
      | some v => simp
    rw [this]
    rfl
  · rw [ema_get?_of_ge data period hn (by omega), hj]
    rw [emaFull]
    rw [List.get?_cons_succ]
    rw [emaChain_get? _ _ _ _ hlt]
    have hx : (data.drop period).getD (i - period) 0 = data.getD i 0 := by
      have hpi : period + (i - period) = i := by omega
      simp [List.getD_eq_getElem?_getD, List.getElem?_drop, hpi]
    rw [hx]
    rfl

theorem priceChanges_length (prices : List ℚ) :
    (priceChanges prices).length = prices.length - 1 := by
  simp [priceChanges]

theorem gainOf_nonneg (c : ℚ) : 0 ≤ gainOf c := by
  unfold gainOf
  split <;> linarith

theorem lossOf_nonneg (c : ℚ) : 0 ≤ lossOf c := by
  unfold lossOf
  split <;> linarith

theorem seedLossOf_nonneg (c : ℚ) : 0 ≤ seedLossOf c := by
  unfold seedLossOf
  split
  · linarith
  · exact abs_nonneg c

theorem wilder_nonneg (period : ℕ) (hp : 1 ≤ period) {avg x : ℚ} (ha : 0 ≤ avg)
    (hx : 0 ≤ x) : 0 ≤ wilder period avg x := by
  have h1 : (1 : ℚ) ≤ (period : ℚ) := by exact_mod_cast hp
  apply div_nonneg _ (by linarith)
  have : 0 ≤ avg * ((period : ℚ) - 1) := mul_nonneg ha (by linarith)
  linarith

theorem rsiValue_bounds {g l : ℚ} (hg : 0 ≤ g) (hl : 0 ≤ l) :
    0 ≤ rsiValue g l ∧ rsiValue g l ≤ 100 := by
  unfold rsiValue
  split
  · norm_num
  · rename_i hne
    have hl' : 0 < l := lt_of_le_of_ne hl (Ne.symm hne)
    have hx : 0 ≤ g / l := div_nonneg hg hl'.le
    have hub : 100 / (1 + g / l) ≤ 100 := div_le_self (by norm_num) (by linarith)
    have hpos : 0 < 100 / (1 + g / l) := div_pos (by norm_num) (by linarith)
    constructor <;> linarith

theorem rsiRest_mem_bounds (period : ℕ) (hp : 1 ≤ period) :
    ∀ (cs : List ℚ) (g l : ℚ), 0 ≤ g → 0 ≤ l →
      ∀ v ∈ rsiRest period g l cs, 0 ≤ v ∧ v ≤ 100
  | [], _, _, _, _, _, hv => by simp [rsiRest] at hv
  | c :: cs, g, l, hg, hl, v, hv => by
    have hg2 : 0 ≤ wilder period g (gainOf c) := wilder_nonneg period hp hg (gainOf_nonneg c)
    have hl2 : 0 ≤ wilder period l (lossOf c) := wilder_nonneg period hp hl (lossOf_nonneg c)
    rw [rsiRest] at hv
    rcases List.mem_cons.mp hv with h | h
    · subst h
      exact rsiValue_bounds hg2 hl2
    · exact rsiRest_mem_bounds period hp cs _ _ hg2 hl2 v h

theorem rsi_seedGain_nonneg (prices : List ℚ) (period : ℕ) :
    0 ≤ (((priceChanges prices).take period).map gainOf).sum / (period : ℚ) := by
  apply div_nonneg _ (by positivity)
  apply List.sum_nonneg
  intro x hx
  rcases List.mem_map.mp hx with ⟨c, _, rfl⟩
  exact gainOf_nonneg c

theorem rsi_seedLoss_nonneg (prices : List ℚ) (period : ℕ) :
    0 ≤ (((priceChanges prices).take period).map seedLossOf).sum / (period : ℚ) := by
  apply div_nonneg _ (by positivity)
  apply List.sum_nonneg
  intro x hx
  rcases List.mem_map.mp hx with ⟨c, _, rfl⟩
  exact seedLossOf_nonneg c

theorem rsi_mem_bounds (prices : List ℚ) (period : ℕ) (hp : 1 ≤ period) :
    ∀ o ∈ calculateRSI prices period, ∀ v, o = some v → 0 ≤ v ∧ v ≤ 100 := by
  intro o ho v hv
  subst hv
  rw [calculateRSI] at ho
  split at ho
  · simp at ho
  · rcases List.mem_append.mp ho with h | h
    · exact absurd (List.eq_of_mem_replicate h) (by simp)
    · rcases List.mem_map.mp h with ⟨w, hw, hws⟩
      have hw' : w ∈ rsiValue _ _ :: rsiRest period _ _ _ := hw
      rcases List.mem_cons.mp hw' with h1 | h1
      · have := rsiValue_bounds (rsi_seedGain_nonneg prices period)
          (rsi_seedLoss_nonneg prices period)
        rw [Option.some_inj] at hws
        rw [← hws, h1]
        exact this
      · rw [Option.some_inj] at hws
        rw [← hws]
        exact rsiRest_mem_bounds period hp _ _ _
          (rsi_seedGain_nonneg prices period) (rsi_seedLoss_nonneg prices period) w h1

theorem rsiRest_length (period : ℕ) :
    ∀ (cs : List ℚ) (g l : ℚ), (rsiRest period g l cs).length = cs.length
  | [], _, _ => rfl
  | c :: cs, g, l => by
    simp [rsiRest, rsiRest_length period cs]

theorem rsi_length (prices : List ℚ) (period : ℕ) (hn : period + 1 ≤ prices.length) :
    (calculateRSI prices period).length = prices.length := by
  rw [calculateRSI, if_neg (by omega)]
  simp [rsiRest_length, priceChanges_length]
  omega

theorem rsiRest_get? (period : ℕ) :
    ∀ (cs : List ℚ) (g l : ℚ) (j : ℕ), j < cs.length →
      (rsiRest period g l cs).get? j =
        some (rsiValue ((cs.take (j + 1)).foldl (rsiStepAvgs period) (g, l)).1
          ((cs.take (j + 1)).foldl (rsiStepAvgs period) (g, l)).2)
  | [], _, _, j, h => by simp at h
  | c :: cs, g, l, 0, _ => by simp [rsiRest, rsiStepAvgs]
  | c :: cs, g, l, j + 1, h => by
    have ih := rsiRest_get? period cs (wilder period g (gainOf c)) (wilder period l (lossOf c))
      j (by simpa using Nat.lt_of_succ_lt_succ h)
    simpa [rsiRest, rsiStepAvgs] using ih

theorem rsi_get?_emitted (prices : List ℚ) (period : ℕ) (hn : period + 1 ≤ prices.length)
    {j : ℕ} (hj : period + j < prices.length) :
    (calculateRSI prices period).get? (period + j) =
      some (some (rsiValue
        ((((priceChanges prices).drop period).take j).foldl (rsiStepAvgs period)
          ((((priceChanges prices).take period).map gainOf).sum / (period : ℚ),
            (((priceChanges prices).take period).map seedLossOf).sum / (period : ℚ))).1
        ((((priceChanges prices).drop period).take j).foldl (rsiStepAvgs period)
          ((((priceChanges prices).take period).map gainOf).sum / (period : ℚ),
            (((priceChanges prices).take period).map seedLossOf).sum / (period : ℚ))).2)) := by
  rw [calculateRSI, if_neg (by omega)]
  rw [List.get?_append_right (by simp)]
  simp only [List.length_replicate, Nat.add_sub_cancel_left, List.get?_map]
  cases j with
  | zero => simp
  | succ j =>
    rw [List.get?_cons_succ]
    rw [rsiRest_get? period _ _ _ j (by
      rw [List.length_drop, priceChanges_length]
      omega)]
    simp

theorem macd_macdLine_eq (data : List ℚ) (fastPeriod slowPeriod signalPeriod : ℕ) :
    (calculateMACD data fastPeriod slowPeriod signalPeriod).macdLine =
      List.zipWith subSome (calculateEMA data fastPeriod) (calculateEMA data slowPeriod) := rfl

theorem macd_signalLine_eq (data : List ℚ) (fastPeriod slowPeriod signalPeriod : ℕ) :
    (calculateMACD data fastPeriod slowPeriod signalPeriod).signalLine =
      scatterSignal data.length
        (calculateEMA
          (macdValidValues (calculateMACD data fastPeriod slowPeriod signalPeriod).macdLine)
          signalPeriod)
        (macdValidIndices (calculateMACD data fastPeriod slowPeriod signalPeriod).macdLine) := rfl

theorem macd_histogram_eq (data : List ℚ) (fastPeriod slowPeriod signalPeriod : ℕ) :
    (calculateMACD data fastPeriod slowPeriod signalPeriod).histogram =
      List.zipWith subSome (calculateMACD data fastPeriod slowPeriod signalPeriod).macdLine
        (calculateMACD data fastPeriod slowPeriod signalPeriod).signalLine := rfl

theorem foldl_scatter_length :
    ∀ (ps : List (Option ℚ × ℕ)) (acc : List (Option ℚ)),
      (ps.foldl (fun acc p => match p.1 with
        | some v => acc.set p.2 (some v)
        | none => acc) acc).length = acc.length
  | [], _ => rfl
  | p :: ps, acc => by
    rw [List.foldl_cons, foldl_scatter_length ps]
    cases p.1 <;> simp

theorem scatterSignal_length (n : ℕ) (vals : List (Option ℚ)) (idxs : List ℕ) :
    (scatterSignal n vals idxs).length = n := by
  rw [scatterSignal, foldl_scatter_length]
  simp

theorem foldl_scatter_of_none :
    ∀ (ps : List (Option ℚ × ℕ)) (acc : List (Option ℚ)), (∀ p ∈ ps, p.1 = none) →
      ps.foldl (fun acc p => match p.1 with
        | some v => acc.set p.2 (some v)
        | none => acc) acc = acc
  | [], _, _ => rfl
  | p :: ps, acc, h => by
    rw [List.foldl_cons, h p (List.mem_cons_self p ps)]
    exact foldl_scatter_of_none ps acc fun q hq => h q (List.mem_cons_of_mem p hq)

/-- When every signal-EMA value is null, the scatter loop leaves the all-null
array untouched. -/
theorem scatterSignal_replicate_none (n m : ℕ) (idxs : List ℕ) :
    scatterSignal n (List.replicate m none) idxs = List.replicate n none := by
  rw [scatterSignal]
  apply foldl_scatter_of_none
  intro p hp
  exact List.eq_of_mem_replicate (List.mem_zip hp).1

theorem subSome_none_right (x : Option ℚ) : subSome x none = none := by
  cases x <;> rfl

theorem zipWith_subSome_replicate_none (a : List (Option ℚ)) (k : ℕ) :
    ∀ x ∈ List.zipWith subSome a (List.replicate k none), x = none := by
  induction a generalizing k with
  | nil => simp
  | cons y a ih =>
    cases k with
    | zero => simp
    | succ k =>
      intro x hx
      rw [List.replicate_succ, List.zipWith_cons_cons] at hx
      rcases List.mem_cons.mp hx with h | h
      · rw [h, subSome_none_right]
      · exact ih k x h

theorem filterMap_id_replicate_none (k : ℕ) :
    (List.replicate k (none : Option ℚ)).filterMap id = [] := by
  induction k with
  | zero => rfl
  | succ k ih => rw [List.replicate_succ, List.filterMap_cons]; exact ih

theorem filterMap_zipWith_subSome_le :
    ∀ (a b : List (Option ℚ)),
      ((List.zipWith subSome a b).filterMap id).length ≤ (b.filterMap id).length
  | [], b => by simp
  | x :: a, [] => by simp
  | x :: a, y :: b => by
    have ih := filterMap_zipWith_subSome_le a b
    cases x <;> cases y <;>
      simp [subSome, List.filterMap_cons, List.zipWith_cons_cons] <;> omega

/-- Fewer than `slow + signal - 1` samples leave fewer than `signal` valid
MACD values to feed the signal EMA. -/
theorem macdValidValues_short (data : List ℚ) (fastPeriod slowPeriod signalPeriod : ℕ)
    (hsig : 1 ≤ signalPeriod) (hn : data.length + 1 < slowPeriod + signalPeriod) :
    (macdValidValues (calculateMACD data fastPeriod slowPeriod signalPeriod).macdLine).length <
      signalPeriod := by
  rw [macd_macdLine_eq, macdValidValues]
  have hle := filterMap_zipWith_subSome_le (calculateEMA data fastPeriod)
    (calculateEMA data slowPeriod)
  apply Nat.lt_of_le_of_lt hle
  by_cases hcase : data.length < slowPeriod
  · rw [calculateEMA, if_pos hcase, filterMap_id_replicate_none]
    simpa using hsig
  · rw [ema_eq_chain data slowPeriod (by omega), List.filterMap_append,
      filterMap_id_replicate_none]
    have : ((emaFull data slowPeriod).map some).filterMap id = emaFull data slowPeriod := by
      rw [List.filterMap_map]
      simp
    rw [List.nil_append, this, emaFull_length]
    omega

/-- With fewer than `slow + signal - 1` samples, the signal line is entirely
null. -/
theorem macd_signalLine_all_none (data : List ℚ) (fastPeriod slowPeriod signalPeriod : ℕ)
    (hsig : 1 ≤ signalPeriod) (hn : data.length + 1 < slowPeriod + signalPeriod) :
    ∀ x ∈ (calculateMACD data fastPeriod slowPeriod signalPeriod).signalLine, x = none := by
  rw [macd_signalLine_eq, calculateEMA,
    if_pos (macdValidValues_short data fastPeriod slowPeriod signalPeriod hsig hn),
    scatterSignal_replicate_none]
  exact fun x hx => List.eq_of_mem_replicate hx

/-- With fewer than `slow + signal - 1` samples, the histogram is entirely
null. -/
theorem macd_histogram_all_none (data : List ℚ) (fastPeriod slowPeriod signalPeriod : ℕ)
    (hsig : 1 ≤ signalPeriod) (hn : data.length + 1 < slowPeriod + signalPeriod) :
    ∀ x ∈ (calculateMACD data fastPeriod slowPeriod signalPeriod).histogram, x = none := by
  rw [macd_histogram_eq, macd_signalLine_eq, calculateEMA,
    if_pos (macdValidValues_short data fastPeriod slowPeriod signalPeriod hsig hn),
    scatterSignal_replicate_none]
  exact zipWith_subSome_replicate_none _ _

/-- With fewer than `slow` samples the MACD line itself is entirely null. -/
theorem macd_macdLine_all_none (data : List ℚ) (fastPeriod slowPeriod signalPeriod : ℕ)
    (hn : data.length < slowPeriod) :
    ∀ x ∈ (calculateMACD data fastPeriod slowPeriod signalPeriod).macdLine, x = none := by
  rw [macd_macdLine_eq,
    show calculateEMA data slowPeriod = List.replicate data.length none from by
      rw [calculateEMA, if_pos hn]]
  exact zipWith_subSome_replicate_none _ _

theorem macd_lengths (data : List ℚ) (fastPeriod slowPeriod signalPeriod : ℕ)
    (hf : 1 ≤ fastPeriod) (hs : 1 ≤ slowPeriod) :
    (calculateMACD data fastPeriod slowPeriod signalPeriod).macdLine.length = data.length ∧
    (calculateMACD data fastPeriod slowPeriod signalPeriod).signalLine.length = data.length ∧
    (calculateMACD data fastPeriod slowPeriod signalPeriod).histogram.length = data.length := by
  have h1 : (calculateMACD data fastPeriod slowPeriod signalPeriod).macdLine.length =
      data.length := by
    rw [macd_macdLine_eq]
    simp [ema_length data fastPeriod hf, ema_length data slowPeriod hs]
  have h2 : (calculateMACD data fastPeriod slowPeriod signalPeriod).signalLine.length =
      data.length := by
    rw [macd_signalLine_eq, scatterSignal_length]
  refine ⟨h1, h2, ?_⟩
  rw [macd_histogram_eq]
  simp [h1, h2]

theorem jsSlice_window (data : List ℚ) (period : ℕ) (hp : 1 ≤ period) {i : ℕ}
    (hi : i < data.length) (h : period ≤ i + 1) :
    jsSlice data ((i : ℤ) - (period : ℤ) + 1) ((i : ℤ) + 1) =
      (data.drop (i + 1 - period)).take period := by
  rw [jsSlice_of_nonneg data _ _ (by omega) (by omega) (by omega) (by omega)]
  have h1 : ((i : ℤ) - (period : ℤ) + 1).toNat = i + 1 - period := by omega
  have h2 : ((i : ℤ) + 1).toNat - ((i : ℤ) - (period : ℤ) + 1).toNat = period := by omega
  rw [h2, h1]

theorem bollinger_middle_eq (sqrtFn : ℚ → ℚ) (data : List ℚ) (period : ℤ) (mult : ℚ) :
    (calculateBollingerBands sqrtFn data period mult).middle = calculateSMA data period := rfl

theorem bollinger_upper_eq (sqrtFn : ℚ → ℚ) (data : List ℚ) (period : ℤ) (mult : ℚ) :
    (calculateBollingerBands sqrtFn data period mult).upper =
      ((List.range data.length).map
        (bollingerPair sqrtFn data period mult (calculateSMA data period))).map Prod.fst := rfl

theorem bollinger_lower_eq (sqrtFn : ℚ → ℚ) (data : List ℚ) (period : ℤ) (mult : ℚ) :
    (calculateBollingerBands sqrtFn data period mult).lower =
      ((List.range data.length).map
        (bollingerPair sqrtFn data period mult (calculateSMA data period))).map Prod.snd := rfl

theorem bollinger_lengths (sqrtFn : ℚ → ℚ) (data : List ℚ) (period : ℤ) (mult : ℚ) :
    (calculateBollingerBands sqrtFn data period mult).upper.length = data.length ∧
    (calculateBollingerBands sqrtFn data period mult).middle.length = data.length ∧
    (calculateBollingerBands sqrtFn data period mult).lower.length = data.length := by
  refine ⟨?_, ?_, ?_⟩
  · rw [bollinger_upper_eq]
    simp
  · rw [bollinger_middle_eq, sma_length]
  · rw [bollinger_lower_eq]
    simp

/-- At every index whose middle band is non-null, the upper and lower bands
are the middle offset by `multiplier` times the square root of the population
variance of the trailing window. -/
theorem bollinger_get?_of_middle (sqrtFn : ℚ → ℚ) (data : List ℚ) (period : ℕ)
    (hp : 1 ≤ period) (mult : ℚ) {i : ℕ} (hi : i < data.length) {m : ℚ}
    (hm : (calculateBollingerBands sqrtFn data (period : ℤ) mult).middle.get? i =
      some (some m)) :
    period ≤ i + 1 ∧
    (calculateBollingerBands sqrtFn data (period : ℤ) mult).upper.get? i =
      some (some (m + mult * sqrtFn ((((data.drop (i + 1 - period)).take period).map
        (fun v => (v - m) ^ 2)).sum / (period : ℚ)))) ∧
    (calculateBollingerBands sqrtFn data (period : ℤ) mult).lower.get? i =
      some (some (m - mult * sqrtFn ((((data.drop (i + 1 - period)).take period).map
        (fun v => (v - m) ^ 2)).sum / (period : ℚ)))) := by
  rw [bollinger_middle_eq] at hm
  have hm' := hm
  rw [sma_get?_eq data _ hi, Option.some_inj] at hm'
  by_cases hc : (i : ℤ) < (period : ℤ) - 1
  · rw [if_pos hc] at hm'
    exact absurd hm' (by simp)
  · have hle : period ≤ i + 1 := by omega
    have hgetD : (calculateSMA data (period : ℤ)).getD i none = some m := by
      rw [List.getD_eq_getElem?_getD, ← List.get?_eq_getElem?, hm]
      rfl
    have hpair : bollingerPair sqrtFn data (period : ℤ) mult (calculateSMA data (period : ℤ)) i =
        (some (m + mult * sqrtFn ((((data.drop (i + 1 - period)).take period).map
          (fun v => (v - m) ^ 2)).sum / (period : ℚ))),
         some (m - mult * sqrtFn ((((data.drop (i + 1 - period)).take period).map
          (fun v => (v - m) ^ 2)).sum / (period : ℚ)))) := by
      rw [bollingerPair, if_neg hc, hgetD]
      rw [jsSlice_window data period hp hi hle]
      norm_cast
    refine ⟨hle, ?_, ?_⟩
    · rw [bollinger_upper_eq]
      rw [List.get?_eq_getElem?, List.getElem?_map, List.getElem?_map,
        List.getElem?_range hi, Option.map_some', Option.map_some', hpair]
    · rw [bollinger_lower_eq]
      rw [List.get?_eq_getElem?, List.getElem?_map, List.getElem?_map,
        List.getElem?_range hi, Option.map_some', Option.map_some', hpair]

/-- Before the warm-up index, `calculateSMA` never emits a null entry when
`period <= 0`: the guard `i < period - 1` is false for every index. -/
theorem sma_entries_some_of_nonpos (data : List ℚ) (period : ℤ) (hper : period ≤ 0) :
    ∀ x ∈ calculateSMA data period, x ≠ none := by
  intro x hx
  rw [calculateSMA] at hx
  rcases List.mem_map.mp hx with ⟨i, _, rfl⟩
  rw [if_neg (by omega)]
  simp

/-- C7: for every input series and period >= 1, calculateSMA outputs null at
every index i < period-1 and at every index i >= period-1 outputs the
arithmetic mean of the period values ending at index i; in particular
calculateSMA([1,2,3,4,5], 3) equals [null, null, 2, 3, 4]. -/
theorem sma_spec_c7 (data : List ℚ) (period : ℕ) (hp : 1 ≤ period) (i : ℕ)
    (hi : i < data.length) :
    (i + 1 < period → (calculateSMA data (period : ℤ)).get? i = some none) ∧
    (period ≤ i + 1 → (calculateSMA data (period : ℤ)).get? i =
      some (some (((data.drop (i + 1 - period)).take period).sum / (period : ℚ)))) ∧
    calculateSMA [1, 2, 3, 4, 5] 3 = [none, none, some 2, some 3, some 4] := by
  refine ⟨fun h => sma_get?_null data period hi h,
    fun h => sma_get?_val data period hp hi h, ?_⟩
  norm_num [calculateSMA, jsSlice, List.range_succ, toNatNumeral]

theorem sma_spec_c7_witness :
    (1 + 1 < 2 → (calculateSMA [1, 2] ((2 : ℕ) : ℤ)).get? 1 = some none) ∧
    (2 ≤ 1 + 1 → (calculateSMA [1, 2] ((2 : ℕ) : ℤ)).get? 1 =
      some (some (((([1, 2] : List ℚ).drop (1 + 1 - 2)).take 2).sum / ((2 : ℕ) : ℚ)))) ∧
    calculateSMA [1, 2, 3, 4, 5] 3 = [none, none, some 2, some 3, some 4] :=
  sma_spec_c7 [1, 2] 2 (by norm_num) 1 (by norm_num)

/-- C6: for period >= 1 and input length >= period, calculateEMA is null
before index period-1, equals the seeding SMA at index period-1, and follows
the recurrence ema[i] = (series[i] - ema[i-1]) * k + ema[i-1] with
k = 2/(period+1) afterwards; for input length < period every output is null;
and ema([1,2,3,4,5], 3)[2] = 2. -/
theorem ema_spec_c6 (data : List ℚ) (period : ℕ) (hp : 1 ≤ period) :
    (period ≤ data.length →
      (∀ i, i + 1 < period → (calculateEMA data period).get? i = some none) ∧
      (calculateEMA data period).get? (period - 1) =
        some (some ((data.take period).sum / (period : ℚ))) ∧
      (∀ i, period ≤ i → i < data.length → ∃ prev,
        (calculateEMA data period).get? (i - 1) = some (some prev) ∧
        (calculateEMA data period).get? i =
          some (some ((data.getD i 0 - prev) * (2 / ((period : ℚ) + 1)) + prev)))) ∧
    (data.length < period → calculateEMA data period = List.replicate data.length none) ∧
    (calculateEMA [1, 2, 3, 4, 5] 3).get? 2 = some (some 2) := by
  refine ⟨fun hn => ⟨fun i h => ema_get?_null data period hn h,
    ema_get?_seed data period hn,
    fun i h1 h2 => ema_get?_step data period hp h1 h2⟩,
    fun h => by rw [calculateEMA, if_pos h], ?_⟩
  have hev : calculateEMA [1, 2, 3, 4, 5] 3 = [none, none, some 2, some 3, some 4] := by
    norm_num [calculateEMA, pushEMA, List.replicate]
  rw [hev]
  rfl

theorem ema_spec_c6_witness :
    (3 ≤ ([1, 2, 3, 4, 5] : List ℚ).length →
      (∀ i, i + 1 < 3 → (calculateEMA [1, 2, 3, 4, 5] 3).get? i = some none) ∧
      (calculateEMA [1, 2, 3, 4, 5] 3).get? (3 - 1) =
        some (some ((([1, 2, 3, 4, 5] : List ℚ).take 3).sum / ((3 : ℕ) : ℚ))) ∧
      (∀ i, 3 ≤ i → i < ([1, 2, 3, 4, 5] : List ℚ).length → ∃ prev,
        (calculateEMA [1, 2, 3, 4, 5] 3).get? (i - 1) = some (some prev) ∧
        (calculateEMA [1, 2, 3, 4, 5] 3).get? i =
          some (some ((([1, 2, 3, 4, 5] : List ℚ).getD i 0 - prev) *
            (2 / (((3 : ℕ) : ℚ) + 1)) + prev)))) ∧
    (([1, 2, 3, 4, 5] : List ℚ).length < 3 →
      calculateEMA [1, 2, 3, 4, 5] 3 =
        List.replicate ([1, 2, 3, 4, 5] : List ℚ).length none) ∧
    (calculateEMA [1, 2, 3, 4, 5] 3).get? 2 = some (some 2) :=
  ema_spec_c6 [1, 2, 3, 4, 5] 3 (by norm_num)

/-- C10: for input length >= period >= 1, the outputs of calculateSMA and
calculateEMA are null exactly at the indices i < period-1 and numeric at every
index i >= period-1, so a null never appears after the first non-null entry. -/
theorem sma_ema_no_gap_c10 (data : List ℚ) (period : ℕ) (hp : 1 ≤ period)
    (hn : period ≤ data.length) (i : ℕ) (hi : i < data.length) :
    ((calculateSMA data (period : ℤ)).get? i = some none ↔ i + 1 < period) ∧
    ((calculateEMA data period).get? i = some none ↔ i + 1 < period) := by
  constructor
  · constructor
    · intro h
      by_contra hlt
      rw [sma_get?_val data period hp hi (by omega)] at h
      simp at h
    · exact sma_get?_null data period hi
  · constructor
    · intro h
      by_contra hlt
      by_cases hcase : period ≤ i
      · obtain ⟨prev, _, hstep⟩ := ema_get?_step data period hp hcase hi
        rw [hstep] at h
        simp at h
      · have hieq : i = period - 1 := by omega
        rw [hieq, ema_get?_seed data period hn] at h
        simp at h
    · exact ema_get?_null data period hn

theorem sma_ema_no_gap_c10_witness :
    ((calculateSMA [1, 2, 3] ((2 : ℕ) : ℤ)).get? 0 = some none ↔ 0 + 1 < 2) ∧
    ((calculateEMA [1, 2, 3] 2).get? 0 = some none ↔ 0 + 1 < 2) :=
  sma_ema_no_gap_c10 [1, 2, 3] 2 (by norm_num) (by norm_num) 0 (by norm_num)

/-- C5: for calculateRSI with period >= 1 and input length >= period+1, every
non-null output lies between 0 and 100, and the value emitted at index
period + j is exactly 100 when the smoothed average loss is 0 there, and
100 - 100/(1 + avgGain/avgLoss) otherwise. -/
theorem rsi_spec_c5 (prices : List ℚ) (period : ℕ) (hp : 1 ≤ period)
    (hn : period + 1 ≤ prices.length) :
    (∀ o ∈ calculateRSI prices period, ∀ v, o = some v → 0 ≤ v ∧ v ≤ 100) ∧
    (∀ j, period + j < prices.length →
      (calculateRSI prices period).get? (period + j) =
        some (some (
          let avgs := (((priceChanges prices).drop period).take j).foldl
            (rsiStepAvgs period)
            ((((priceChanges prices).take period).map gainOf).sum / (period : ℚ),
              (((priceChanges prices).take period).map seedLossOf).sum / (period : ℚ));
          if avgs.2 = 0 then 100 else 100 - 100 / (1 + avgs.1 / avgs.2)))) := by
  refine ⟨rsi_mem_bounds prices period hp, fun j hj => ?_⟩
  rw [rsi_get?_emitted prices period hn hj]
  rfl

theorem rsi_spec_c5_witness :
    (∀ o ∈ calculateRSI [1, 2, 3] 1, ∀ v, o = some v → 0 ≤ v ∧ v ≤ 100) ∧
    (∀ j, 1 + j < ([1, 2, 3] : List ℚ).length →
      (calculateRSI [1, 2, 3] 1).get? (1 + j) =
        some (some (
          let avgs := (((priceChanges [1, 2, 3]).drop 1).take j).foldl
            (rsiStepAvgs 1)
            ((((priceChanges [1, 2, 3]).take 1).map gainOf).sum / ((1 : ℕ) : ℚ),
              (((priceChanges [1, 2, 3]).take 1).map seedLossOf).sum / ((1 : ℕ) : ℚ));
          if avgs.2 = 0 then 100 else 100 - 100 / (1 + avgs.1 / avgs.2)))) :=
  rsi_spec_c5 [1, 2, 3] 1 (by norm_num) (by norm_num)

/-- C8: wherever the Bollinger middle band is non-null, the bands are
symmetric around the middle, and the deviation is the multiplier times the
square root of the population variance (division by period, not period-1) of
the trailing period-sized window. -/
theorem bollinger_spec_c8 (sqrtFn : ℚ → ℚ) (data : List ℚ) (period : ℕ)
    (hp : 1 ≤ period) (mult : ℚ) (i : ℕ) (hi : i < data.length) (m : ℚ)
    (hm : (calculateBollingerBands sqrtFn data (period : ℤ) mult).middle.get? i =
      some (some m)) :
    ∃ u l,
      (calculateBollingerBands sqrtFn data (period : ℤ) mult).upper.get? i =
        some (some u) ∧
      (calculateBollingerBands sqrtFn data (period : ℤ) mult).lower.get? i =
        some (some l) ∧
      m - l = u - m ∧
      u - m = mult * sqrtFn ((((data.drop (i + 1 - period)).take period).map
        (fun v => (v - m) ^ 2)).sum / (period : ℚ)) := by
  obtain ⟨hle, hu, hl⟩ := bollinger_get?_of_middle sqrtFn data period hp mult hi hm
  exact ⟨_, _, hu, hl, by ring, by ring⟩

theorem bollinger_spec_c8_witness :
    ∃ u l,
      (calculateBollingerBands id [1, 3] ((2 : ℕ) : ℤ) 1).upper.get? 1 = some (some u) ∧
      (calculateBollingerBands id [1, 3] ((2 : ℕ) : ℤ) 1).lower.get? 1 = some (some l) ∧
      (2 : ℚ) - l = u - 2 ∧
      u - 2 = 1 * id ((((([1, 3] : List ℚ).drop (1 + 1 - 2)).take 2).map
        (fun v => (v - 2) ^ 2)).sum / ((2 : ℕ) : ℚ)) :=
  bollinger_spec_c8 id [1, 3] 2 (by norm_num) 1 1 (by norm_num) 2 (by
    norm_num [bollinger_middle_eq, calculateSMA, jsSlice, List.range_succ, toNatNumeral,
      List.get?_cons_succ, List.get?_cons_zero])

/-- C9 counterexample: for the negative price -100, the code computes
|(a-b)/a| * 100 = 1 while the claimed formula |a-b|/a * 100 evaluates to -1,
so the claim as stated fails at (a, b) = (-100, -101). -/
theorem drift_formula_c9_counterexample :
    (detectPriceDrift (-100) (-101)).driftPercent ≠ |(-100 : ℚ) - (-101)| / (-100) * 100 := by
  norm_num [detectPriceDrift, abs_of_nonneg, abs_of_nonpos]

/-- C9 (amended): detectPriceDrift(a, b) returns driftPercent =
|a-b|/|a| * 100 (equivalently |a-b|/a * 100 whenever a > 0), except that when
a = 0 it returns drift 0 and acceptable; the result is acceptable iff
driftPercent <= 1; detectPriceDrift(100, 101) is acceptable and
detectPriceDrift(100, 101.01) is not. -/
theorem drift_spec_c9 (a b : ℚ) :
    (a = 0 → detectPriceDrift a b = ⟨0, true⟩) ∧
    (a ≠ 0 → (detectPriceDrift a b).driftPercent = |a - b| / |a| * 100 ∧
      ((detectPriceDrift a b).acceptable = true ↔
        (detectPriceDrift a b).driftPercent ≤ 1)) ∧
    (detectPriceDrift 100 101).acceptable = true ∧
    (detectPriceDrift 100 (10101 / 100)).acceptable = false := by
  refine ⟨fun h => by simp [detectPriceDrift, h], fun h => ⟨?_, ?_⟩,
    by norm_num [detectPriceDrift, abs_of_nonneg, abs_of_nonpos],
    by norm_num [detectPriceDrift, abs_of_nonneg, abs_of_nonpos]⟩
  · rw [detectPriceDrift, if_neg h]
    rw [abs_div]
  · rw [detectPriceDrift, if_neg h]
    simp

theorem drift_spec_c9_witness :
    ((2 : ℚ) = 0 → detectPriceDrift 2 3 = ⟨0, true⟩) ∧
    ((2 : ℚ) ≠ 0 → (detectPriceDrift 2 3).driftPercent = |(2 : ℚ) - 3| / |(2 : ℚ)| * 100 ∧
      ((detectPriceDrift 2 3).acceptable = true ↔
        (detectPriceDrift 2 3).driftPercent ≤ 1)) ∧
    (detectPriceDrift 100 101).acceptable = true ∧
    (detectPriceDrift 100 (10101 / 100)).acceptable = false :=
  drift_spec_c9 2 3

/-- C4 counterexample: calculateSMA with period 0 on the one-element series
[1] does not return an empty output — the output has length 1. -/
theorem sma_nonpos_c4_counterexample : calculateSMA [1] 0 ≠ [] := by
  intro h
  have hl := sma_length [1] 0
  rw [h] at hl
  simp at hl

/-- C4 (amended): for every input series, calculateSMA called with
period <= 0 does not fail and does not return an empty output: it returns an
output of the same length as the input in which every entry is non-null (a
meaningless numeric value — NaN in JavaScript when period = 0). -/
theorem sma_nonpos_c4 (data : List ℚ) (period : ℤ) (hper : period ≤ 0) :
    (calculateSMA data period).length = data.length ∧
    ∀ x ∈ calculateSMA data period, x ≠ none :=
  ⟨sma_length data period, sma_entries_some_of_nonpos data period hper⟩

theorem sma_nonpos_c4_witness :
    (calculateSMA [1] 0).length = ([1] : List ℚ).length ∧
    ∀ x ∈ calculateSMA [1] 0, x ≠ none :=
  sma_nonpos_c4 [1] 0 (by norm_num)

/-- C3 counterexample: with fast=12, slow=26, signal=9 an input of length 34
has fewer than slow + signal = 35 samples, yet the histogram entry at index
33 is non-null (it equals 0 on a constant price series), so the claimed
premise `fewer than slow + signal samples` does not force an all-null
histogram. -/
theorem macd_nulls_c3_counterexample :
    (List.replicate 34 (1 : ℚ)).length < 26 + 9 ∧
    (calculateMACD (List.replicate 34 1) 12 26 9).histogram.get? 33 = some (some 0) := by
  constructor
  · norm_num
  · norm_num [calculateMACD, calculateEMA, pushEMA, subSome, macdValidValues,
      macdValidIndices, scatterSignal, List.replicate_succ, List.filterMap_cons,
      List.enum, List.enumFrom, List.zip, List.zipWith, List.set_cons_zero,
      List.set_cons_succ]

/-- C3 (amended): for every input to calculateMACD with fewer than
slow + signal - 1 samples (signal >= 1), every entry of the returned
histogram is null; in particular, with fastPeriod=12, slowPeriod=26,
signalPeriod=9 and any input of length 20, every entry of macdLine,
signalLine, and histogram is null. -/
theorem macd_nulls_c3 (data : List ℚ) (fastPeriod slowPeriod signalPeriod : ℕ)
    (hsig : 1 ≤ signalPeriod) (hn : data.length + 1 < slowPeriod + signalPeriod) :
    (∀ x ∈ (calculateMACD data fastPeriod slowPeriod signalPeriod).histogram, x = none) ∧
    (∀ d : List ℚ, d.length = 20 →
      (∀ x ∈ (calculateMACD d 12 26 9).macdLine, x = none) ∧
      (∀ x ∈ (calculateMACD d 12 26 9).signalLine, x = none) ∧
      (∀ x ∈ (calculateMACD d 12 26 9).histogram, x = none)) := by
  refine ⟨macd_histogram_all_none data fastPeriod slowPeriod signalPeriod hsig hn,
    fun d hd => ⟨macd_macdLine_all_none d 12 26 9 (by omega),
      macd_signalLine_all_none d 12 26 9 (by norm_num) (by omega),
      macd_histogram_all_none d 12 26 9 (by norm_num) (by omega)⟩⟩

theorem macd_nulls_c3_witness :
    (∀ x ∈ (calculateMACD [1] 12 26 9).histogram, x = none) ∧
    (∀ d : List ℚ, d.length = 20 →
      (∀ x ∈ (calculateMACD d 12 26 9).macdLine, x = none) ∧
      (∀ x ∈ (calculateMACD d 12 26 9).signalLine, x = none) ∧
      (∀ x ∈ (calculateMACD d 12 26 9).histogram, x = none)) :=
  macd_nulls_c3 [1] 12 26 9 (by norm_num) (by norm_num)

/-- C1 counterexample: calculateRSI with its documented default period 14 on
the non-empty input [1] returns an output whose length differs from the input
length — the output is empty. -/
theorem alignment_c1_counterexample :
    (calculateRSI [1] 14).length ≠ ([1] : List ℚ).length := by
  rw [calculateRSI, if_pos (by norm_num)]
  norm_num

/-- C1 (amended): for every non-empty input, calculateSMA (any period),
calculateEMA (period >= 1), calculateMACD (fast, slow >= 1: all three output
sequences) and calculateBollingerBands (all three output sequences) return
outputs whose length equals the input length, including inputs shorter than
the warm-up period; calculateRSI preserves the length only when the input
has at least period+1 samples, and returns the empty sequence otherwise. -/
theorem alignment_c1 (data : List ℚ) (hne : data ≠ []) :
    (∀ period : ℤ, (calculateSMA data period).length = data.length) ∧
    (∀ period : ℕ, 1 ≤ period → (calculateEMA data period).length = data.length) ∧
    (∀ fastPeriod slowPeriod signalPeriod : ℕ, 1 ≤ fastPeriod → 1 ≤ slowPeriod →
      (calculateMACD data fastPeriod slowPeriod signalPeriod).macdLine.length =
        data.length ∧
      (calculateMACD data fastPeriod slowPeriod signalPeriod).signalLine.length =
        data.length ∧
      (calculateMACD data fastPeriod slowPeriod signalPeriod).histogram.length =
        data.length) ∧
    (∀ (sqrtFn : ℚ → ℚ) (period : ℤ) (mult : ℚ),
      (calculateBollingerBands sqrtFn data period mult).upper.length = data.length ∧
      (calculateBollingerBands sqrtFn data period mult).middle.length = data.length ∧
      (calculateBollingerBands sqrtFn data period mult).lower.length = data.length) ∧
    (∀ period : ℕ,
      (period + 1 ≤ data.length → (calculateRSI data period).length = data.length) ∧
      (data.length < period + 1 → calculateRSI data period = [])) :=
  ⟨sma_length data,
    fun p hp => ema_length data p hp,
    fun f s g hf hs => macd_lengths data f s g hf hs,
    fun sq p m => bollinger_lengths sq data p m,
    fun p => ⟨fun h => rsi_length data p h, fun h => by rw [calculateRSI, if_pos h]⟩⟩

theorem alignment_c1_witness :
    (∀ period : ℤ, (calculateSMA [1] period).length = ([1] : List ℚ).length) ∧
    (∀ period : ℕ, 1 ≤ period →
      (calculateEMA [1] period).length = ([1] : List ℚ).length) ∧
    (∀ fastPeriod slowPeriod signalPeriod : ℕ, 1 ≤ fastPeriod → 1 ≤ slowPeriod →
      (calculateMACD [1] fastPeriod slowPeriod signalPeriod).macdLine.length =
        ([1] : List ℚ).length ∧
      (calculateMACD [1] fastPeriod slowPeriod signalPeriod).signalLine.length =
        ([1] : List ℚ).length ∧
      (calculateMACD [1] fastPeriod slowPeriod signalPeriod).histogram.length =
        ([1] : List ℚ).length) ∧
    (∀ (sqrtFn : ℚ → ℚ) (period : ℤ) (mult : ℚ),
      (calculateBollingerBands sqrtFn [1] period mult).upper.length =
        ([1] : List ℚ).length ∧
      (calculateBollingerBands sqrtFn [1] period mult).middle.length =
        ([1] : List ℚ).length ∧
      (calculateBollingerBands sqrtFn [1] period mult).lower.length =
        ([1] : List ℚ).length) ∧
    (∀ period : ℕ,
      (period + 1 ≤ ([1] : List ℚ).length →
        (calculateRSI [1] period).length = ([1] : List ℚ).length) ∧
      (([1] : List ℚ).length < period + 1 → calculateRSI [1] period = [])) :=
  alignment_c1 [1] (by simp)

/-- C2: the coin-history endpoint never serves its stale-cache fallback from
the catch block: with a pre-populated (expired) cache entry for the requested
key, both a 500 upstream response and a network failure make the handler
throw `ReferenceError: cacheKey is not defined` (the `const cacheKey` lives
inside the `try` block and is out of scope in `catch`) instead of returning
`{data, cached: true, stale: true}`; only the in-`try` 429 branch, which can
still see `cacheKey`, returns the stale payload. -/
theorem coin_history_stale_fallback_c2 :
    coinHistoryGET (some "bitcoin") none none [("bitcoin_7_usd", ⟨42, 0⟩)] 1000000
      (.ok 500 7) = .error (.referenceError "cacheKey") ∧
    coinHistoryGET (some "bitcoin") none none [("bitcoin_7_usd", ⟨42, 0⟩)] 1000000
      .netError = .error (.referenceError "cacheKey") ∧
    coinHistoryGET (some "bitcoin") none none [("bitcoin_7_usd", ⟨42, 0⟩)] 1000000
      (.ok 429 7) = .ok (.payload 42 true true 0, [("bitcoin_7_usd", ⟨42, 0⟩)]) :=
  ⟨rfl, rfl, rfl⟩
